import Mathlib

set_option autoImplicit false
set_option maxHeartbeats 1000000

/-!
Shallow embedding of the node-runner SSH execution engine.

Source files embedded here:
  * `config.py` — the `NodeConfig` / `Config` dataclasses (only the fields the
    engine reads; parsing itself is the excluded configuration collaborator).
  * `executor.py` — `NodeStatus`, `NodeState`, and the `Executor` methods
    `_setup_logging`, `_emit_output`, `_emit_status`, `run_all`, `_run_node`,
    `_run_command`.
  * `src/scatter/runner.py` — `_run_headless`.

The SSH transport (asyncssh) is an external collaborator.  Its behaviour for a
run of one node is modelled by a `ConnectResult` (how `asyncssh.connect`
resolves: success, an `asyncssh.Error`, or an `OSError`) together with a map
from command index to `CmdResult` (the raw lines `readline` yields, in the
interleaved order the two stream readers observe them, and then either the
process exit status or an `asyncssh.Error` raised while launching/streaming).

A node's driver is embedded as a function producing the ordered list of
primitive effects (`Ev`) it performs: state-field writes, log-file appends and
sink callbacks, exactly in the order the Python code performs them.  Observers
of the run (status sequences, output history, log-file bytes, final state)
are computed from that trace.
-/

/-- Status of a node's execution (`executor.py`, `class NodeStatus`). -/
inductive NodeStatus where
  | pending
  | connecting
  | running
  | success
  | failed
  deriving DecidableEq, Repr

/-- Per-node configuration (`config.py`, `class NodeConfig`).  `ssh_key` and
`timeout` are carried for fidelity but never read by the engine logic. -/
structure NodeConfig where
  name : String
  host : String
  port : Nat
  commands : List String
  user : String
  stop_on_error : Bool
  no_logs : Bool
  work_dir : Option String
  ssh_key : String
  timeout : Nat
  deriving DecidableEq, Repr

/-- Top-level configuration (`config.py`, `class Config`).  `source_path` is
the path of the originating YAML file, when known. -/
structure Config where
  nodes : List NodeConfig
  log_dir : String
  source_path : Option String
  deriving DecidableEq, Repr

/-- Runtime state for a node (`executor.py`, `class NodeState`). -/
structure NodeState where
  config : NodeConfig
  status : NodeStatus
  current_command : String
  current_command_index : Nat
  output_lines : List String
  error_message : String
  log_file : Option String
  deriving DecidableEq, Repr

/-- Outcome of one `_run_command` interaction with the transport collaborator:
the raw lines the two `readline` loops deliver (tagged `true` for stderr), in
the merged order they are observed, followed by either the process exit status
or an `asyncssh.Error` (with its message) raised while launching or streaming.
In the fault case `lines` are the lines already delivered before the raise. -/
inductive CmdResult where
  | completed (lines : List (Bool × String)) (exit_status : Int)
  | faulted (lines : List (Bool × String)) (msg : String)
  deriving DecidableEq, Repr

/-- How `asyncssh.connect` resolves for a node: an established session, an
`asyncssh.Error`, or an `OSError` (the two exception types `_run_node`
catches), each carrying the exception's message text. -/
inductive ConnectResult where
  | ok
  | sshErr (msg : String)
  | osErr (msg : String)
  deriving DecidableEq, Repr

/-- One primitive effect performed by the engine, in program order:
  * `setStatus` / `sinkStatus` — the two halves of `_emit_status` (field
    assignment, then the `on_status` callback);
  * `appendHistory` / `writeLog` / `sinkOutput` — the three halves of
    `_emit_output` (history append, log-file append of a full record, then the
    `on_output` callback);
  * `setError` — assignment to `state.error_message`;
  * `setCurrentCmd` — assignment to `state.current_command[_index]`. -/
inductive Ev where
  | setStatus (s : NodeStatus)
  | sinkStatus (s : NodeStatus)
  | appendHistory (line : String)
  | writeLog (record : String)
  | sinkOutput (line : String)
  | setError (msg : String)
  | setCurrentCmd (i : Nat) (cmd : String)
  deriving DecidableEq, Repr

/-- Python's `line.rstrip("\n\r")`: remove every trailing `'\n'` or `'\r'`. -/
def rstripNlCr (s : String) : String :=
  String.mk ((s.data.reverse.dropWhile (fun c => c == '\n' || c == '\r')).reverse)

/-- Formatting of one raw stream line in `_run_command.read_stream`:
`f"{prefix}{line}"` after the rstrip, where the marker is `"STDERR: "` for the
stderr stream and empty for stdout. -/
def formatStreamLine (p : Bool × String) : String :=
  (if p.1 then "STDERR: " else "") ++ rstripNlCr p.2

/-- `Executor._emit_output` for a node that is present in `self.states` (all
engine-emitted output is): append to `output_lines`, then, when a log file is
assigned, append `line + "\n"` to it, then invoke the `on_output` sink.
`log` says whether the node has a log file assigned. -/
def emitOutput (log : Bool) (line : String) : List Ev :=
  Ev.appendHistory line ::
    (if log then [Ev.writeLog (line ++ "\n")] else []) ++ [Ev.sinkOutput line]

/-- `Executor._emit_status`: assign `state.status`, then invoke `on_status`. -/
def emitStatus (s : NodeStatus) : List Ev :=
  [Ev.setStatus s, Ev.sinkStatus s]

/-- Emit a sequence of output lines, one `_emit_output` call each. -/
def emitLines (log : Bool) : List String → List Ev
  | [] => []
  | l :: rest => emitOutput log l ++ emitLines log rest

/-- The output lines a single `_run_command` call emits for a given transport
outcome: every stream line formatted; on a non-zero exit status one extra
line `"Command exited with status <n>"`; on an `asyncssh.Error` one extra
line `"Command error: <msg>"`. -/
def cmdOutLines : CmdResult → List String
  | .completed lines code =>
      lines.map formatStreamLine ++
        (if code == 0 then [] else ["Command exited with status " ++ toString code])
  | .faulted lines msg =>
      lines.map formatStreamLine ++ ["Command error: " ++ msg]

/-- `Executor._run_command`: the effect trace it performs and the boolean it
returns.  The `asyncssh.Error` branch is caught inside the function (the
`except` at its end), reported as a `"Command error: ..."` output line, and
turned into `False`; the non-zero-exit branch emits the exit-status line and
returns `False`; otherwise it returns `True`. -/
def runCommandEvents (log : Bool) : CmdResult → List Ev × Bool
  | .completed lines code =>
      (emitLines log (lines.map formatStreamLine) ++
        (if code == 0 then [] else
          emitOutput log ("Command exited with status " ++ toString code)),
       code == 0)
  | .faulted lines msg =>
      (emitLines log (lines.map formatStreamLine) ++
        emitOutput log ("Command error: " ++ msg),
       false)

/-- Whether a command outcome counts as success for the driver's loop
(`success = await self._run_command(...)`): a zero exit status, and never in
the fault case. -/
def cmdOK : CmdResult → Bool
  | .completed _ code => code == 0
  | .faulted _ _ => false

/-- The `for i, cmd in enumerate(node.commands)` loop of `_run_node`, started
at absolute index `i` with the remaining command list.  `env` maps a command's
index to its transport outcome.  On a failed command with `stop_on_error` set
the loop emits `FAILED`, assigns the error message and returns; after the last
command it emits the two closing output lines and `SUCCESS`. -/
def runLoop (cfg : NodeConfig) (log : Bool) (env : Nat → CmdResult) :
    Nat → List String → List Ev
  | _, [] =>
      emitOutput log "" ++ emitOutput log "All commands completed" ++
        emitStatus .success
  | i, cmd :: rest =>
      Ev.setCurrentCmd i cmd ::
        (emitOutput log ("$ " ++ cmd) ++
          (runCommandEvents log (env i)).1 ++
          (if !(runCommandEvents log (env i)).2 && cfg.stop_on_error then
            emitStatus .failed ++ [Ev.setError ("Command failed: " ++ cmd)]
          else
            runLoop cfg log env (i + 1) rest))

/-- The `"Connecting to user@host:port..."` line of `_run_node`. -/
def connectingLine (cfg : NodeConfig) : String :=
  "Connecting to " ++ cfg.user ++ "@" ++ cfg.host ++ ":" ++ toString cfg.port ++ "..."

/-- `Executor._run_node` as an effect trace: emit `CONNECTING` and the
connecting line; then, depending on how `asyncssh.connect` resolves, either
enter `RUNNING` (emitting the connected line, the optional working-directory
line and a blank line) and run the command loop, or catch the
`asyncssh.Error` / `OSError`, emit `FAILED`, assign the error message and emit
the `"ERROR: ..."` line. -/
def runNode (cfg : NodeConfig) (log : Bool) (conn : ConnectResult)
    (env : Nat → CmdResult) : List Ev :=
  emitStatus .connecting ++ emitOutput log (connectingLine cfg) ++
    (match conn with
     | .ok =>
         emitStatus .running ++ emitOutput log "Connected successfully" ++
           (match cfg.work_dir with
            | some wd => emitOutput log ("Working directory: " ++ wd)
            | none => []) ++
           emitOutput log "" ++ runLoop cfg log env 0 cfg.commands
     | .sshErr msg =>
         emitStatus .failed ++ Ev.setError ("SSH error: " ++ msg) ::
           emitOutput log ("ERROR: " ++ msg)
     | .osErr msg =>
         emitStatus .failed ++ Ev.setError ("Connection error: " ++ msg) ::
           emitOutput log ("ERROR: " ++ msg))

/-- `_setup_logging` creates the timestamped log directory iff logging is
globally enabled and not every node has `no_logs` set. -/
def logDirCreated (c : Config) (enable_logging : Bool) : Bool :=
  enable_logging && !(c.nodes.all (fun n => n.no_logs))

/-- `_setup_logging` copies the source configuration into the log directory
iff the directory was created, a source path is recorded and that file
exists on disk (`source_exists`). -/
def configCopied (c : Config) (enable_logging source_exists : Bool) : Bool :=
  logDirCreated c enable_logging && c.source_path.isSome && source_exists

/-- `run_all`'s per-node log-file decision: a log file is assigned iff the
log directory exists (see `logDirCreated`) and the node's `no_logs` is off. -/
def nodeLogAssigned (c : Config) (enable_logging : Bool) (n : NodeConfig) : Bool :=
  logDirCreated c enable_logging && !n.no_logs

/-- The `NodeState` `run_all` creates for a node before launching its driver:
status `PENDING`, empty history and error message, and the log-file path when
one is assigned (the path is abbreviated to `"<name>.log"`; only its
presence matters to the engine). -/
def initState (cfg : NodeConfig) (log : Bool) : NodeState :=
  { config := cfg
    status := .pending
    current_command := ""
    current_command_index := 0
    output_lines := []
    error_message := ""
    log_file := if log then some (cfg.name ++ ".log") else none }

/-- Replay one primitive effect against a `NodeState`.  Sink callbacks and
log-file writes do not change the in-memory state. -/
def applyEv (st : NodeState) : Ev → NodeState
  | .setStatus s => { st with status := s }
  | .sinkStatus _ => st
  | .appendHistory l => { st with output_lines := st.output_lines ++ [l] }
  | .writeLog _ => st
  | .sinkOutput _ => st
  | .setError m => { st with error_message := m }
  | .setCurrentCmd i c => { st with current_command := c, current_command_index := i }

/-- The node's `NodeState` after its driver finishes. -/
def finalState (cfg : NodeConfig) (log : Bool) (conn : ConnectResult)
    (env : Nat → CmdResult) : NodeState :=
  (runNode cfg log conn env).foldl applyEv (initState cfg log)

/-- `run_all`: initialize one state per node, run every driver, return the
states keyed by node name (name uniqueness across the fleet is a precondition
established by the configuration collaborator, so the dict is modelled as the
association list in configuration order).  `connOf` and `envOf` give each
node index its transport behaviour. -/
def runAllStates (c : Config) (enable_logging : Bool)
    (connOf : Nat → ConnectResult) (envOf : Nat → Nat → CmdResult) :
    List (String × NodeState) :=
  c.nodes.enum.map (fun p =>
    (p.2.name, finalState p.2 (nodeLogAssigned c enable_logging p.2)
      (connOf p.1) (envOf p.1)))

/-- `_run_headless`'s failure aggregation: the names of the nodes whose final
status is `FAILED`, in configuration order. -/
def failedNames (states : List (String × NodeState)) : List String :=
  (states.filter (fun p => p.2.status == NodeStatus.failed)).map (fun p => p.1)

/-- Result of a headless run: the process exit code and the summary line
printed to stderr (kept separate from the per-node interleaved output). -/
structure HeadlessOutcome where
  exitCode : Nat
  failedReport : Option String
  deriving DecidableEq, Repr

/-- `_run_headless` (`src/scatter/runner.py`): run everything, then exit 1
with a `"Failed nodes: ..."` stderr line when any node failed, else exit 0. -/
def runHeadless (c : Config) (enable_logging : Bool)
    (connOf : Nat → ConnectResult) (envOf : Nat → Nat → CmdResult) :
    HeadlessOutcome :=
  let f := failedNames (runAllStates c enable_logging connOf envOf)
  if f.isEmpty then ⟨0, none⟩
  else ⟨1, some ("Failed nodes: " ++ String.intercalate ", " f)⟩

/-! ### Observations over effect traces -/

/-- The statuses delivered through the Event Sink, in delivery order. -/
def sinkStatuses (tr : List Ev) : List NodeStatus :=
  tr.filterMap (fun e => match e with | .sinkStatus s => some s | _ => none)

/-- The lines appended to the node's in-memory output history, in order. -/
def histOf (tr : List Ev) : List String :=
  tr.filterMap (fun e => match e with | .appendHistory l => some l | _ => none)

/-- The records appended to the node's log file, in order. -/
def recsOf (tr : List Ev) : List String :=
  tr.filterMap (fun e => match e with | .writeLog r => some r | _ => none)

/-- The values assigned to `state.status`, in order. -/
def setStatusesOf (tr : List Ev) : List NodeStatus :=
  tr.filterMap (fun e => match e with | .setStatus s => some s | _ => none)

/-- The values assigned to `state.error_message`, in order. -/
def setErrorsOf (tr : List Ev) : List String :=
  tr.filterMap (fun e => match e with | .setError m => some m | _ => none)

/-- The `(index, command)` pairs the loop started executing, in order: one
entry per command actually attempted. -/
def attemptsOf (tr : List Ev) : List (Nat × String) :=
  tr.filterMap (fun e => match e with | .setCurrentCmd i c => some (i, c) | _ => none)

/-- The value of `state.error_message` after replaying a trace from a fresh
state (empty string until the first assignment, last assignment wins). -/
def errorMsgAt (tr : List Ev) : String :=
  tr.foldl (fun m e => match e with | .setError s => s | _ => m) ""

/-- Whether a node's status is terminal (`SUCCESS` or `FAILED`). -/
def isTerminal (s : NodeStatus) : Bool :=
  s == NodeStatus.success || s == NodeStatus.failed

/-- The state machine of §4.2: `PENDING → CONNECTING → RUNNING → {SUCCESS,
FAILED}` with `CONNECTING → FAILED` on connection failure. -/
def machineStep : NodeStatus → NodeStatus → Bool
  | .pending, .connecting => true
  | .connecting, .running => true
  | .connecting, .failed => true
  | .running, .success => true
  | .running, .failed => true
  | _, _ => false

/-- `isValidPathFrom s l`: successive elements of `l`, starting from `s`,
each follow a machine transition. -/
def isValidPathFrom (s : NodeStatus) : List NodeStatus → Bool
  | [] => true
  | t :: rest => machineStep s t && isValidPathFrom t rest

/-- No status occurs after a terminal one in the list. -/
def noAfterTerminal : List NodeStatus → Bool
  | [] => true
  | s :: rest => if isTerminal s then rest.isEmpty else noAfterTerminal rest

/-- Formalization of the order the spec claims for `_emit_output` ("sink
first"): scanning the trace, every history append of a line must have been
preceded by a sink delivery of that same line.  `seen` accumulates the lines
already forwarded to the sink. -/
def sinkFirstAux : List String → List Ev → Bool
  | _, [] => true
  | seen, Ev.sinkOutput l :: rest => sinkFirstAux (l :: seen) rest
  | seen, Ev.appendHistory l :: rest => seen.contains l && sinkFirstAux seen rest
  | seen, _ :: rest => sinkFirstAux seen rest

/-- "The engine first forwards the line to the Event Sink, then appends it to
the history": true iff every history append is preceded by the sink call. -/
def sinkFirstOrder (tr : List Ev) : Bool := sinkFirstAux [] tr

/-- The order `_emit_output` actually performs: each output emission is a
contiguous block — history append, then (exactly when a log file is assigned)
the newline-terminated record append, then the sink callback, all for the
same line.  Status, error and current-command effects pass through freely. -/
def emitBlocksOK (log : Bool) : List Ev → Bool
  | [] => true
  | Ev.appendHistory l :: Ev.writeLog r :: Ev.sinkOutput l2 :: rest =>
      log && r == l ++ "\n" && l2 == l && emitBlocksOK log rest
  | Ev.appendHistory l :: Ev.sinkOutput l2 :: rest =>
      !log && l2 == l && emitBlocksOK log rest
  | Ev.appendHistory _ :: _ => false
  | Ev.writeLog _ :: _ => false
  | Ev.sinkOutput _ :: _ => false
  | _ :: rest => emitBlocksOK log rest

/-- Split a character sequence at every `'\n'` (the separators are consumed;
a trailing `'\n'` yields a final empty segment). -/
def splitNl : List Char → List (List Char)
  | [] => [[]]
  | c :: rest =>
      if c = '\n' then [] :: splitNl rest
      else
        match splitNl rest with
        | p :: ps => (c :: p) :: ps
        | [] => [[c]]

/-- The text lines a reader sees in a newline-terminated file with the given
character content: split at `'\n'` and drop the final empty segment.  (Every
record the engine writes ends in `'\n'`, so file contents produced by a run
are always newline-terminated or empty.) -/
def textLinesC (cs : List Char) : List (List Char) :=
  (splitNl cs).dropLast

/-- The character content of the node's log file after a trace: the
concatenation of all appended records. -/
def logChars (tr : List Ev) : List Char :=
  (recsOf tr).foldr (fun r acc => r.data ++ acc) []

/-- Scanning a trace forward: does an `error_message` assignment occur
strictly before the first `FAILED` delivery to the sink (if any)? -/
def setErrorBeforeFailedSink : List Ev → Bool
  | [] => false
  | Ev.sinkStatus s :: rest =>
      if s = NodeStatus.failed then false else setErrorBeforeFailedSink rest
  | Ev.setError _ :: _ => true
  | _ :: rest => setErrorBeforeFailedSink rest

/-- Whether a trace prefix stops in the middle of a single output emission:
its last effect is the history append whose paired log write (and sink call),
from the same `_emit_output` body, has not happened yet.  In the Python code
this is the instant between `output_lines.append(line)` and the following
`f.write(...)` — two adjacent statements with no callback invocation and no
suspension point between them, so the run cannot be observed there.  Every
other prefix of the effect trace is a point during the run at which an
observer (a callback, another task, or the caller at run end) can look at
the node's state and its log file. -/
def isMidEmit (tr : List Ev) : Bool :=
  match tr.getLast? with
  | some (Ev.appendHistory _) => true
  | _ => false

/-! ### Concrete instances used by witnesses and counterexamples -/

/-- A minimal one-command node configuration. -/
def cfgA : NodeConfig :=
  { name := "n1", host := "h", port := 22, commands := ["ls"], user := "root"
    stop_on_error := true, no_logs := false, work_dir := none
    ssh_key := "k", timeout := 30 }

/-- A two-command node configuration with stop-on-error enabled. -/
def cfgB : NodeConfig :=
  { cfgA with commands := ["false", "echo hi"] }

/-- The same two commands with stop-on-error disabled. -/
def cfgC : NodeConfig :=
  { cfgB with stop_on_error := false }

/-- A node whose single configured command contains an embedded newline
(legal YAML: a multi-line command string). -/
def cfgNl : NodeConfig :=
  { cfgA with commands := ["echo a\necho b"] }

/-- A node with per-node logging disabled. -/
def cfgNoLogs : NodeConfig :=
  { cfgA with no_logs := true }

/-- Transport behaviour: every command succeeds with one stdout line. -/
def envOkA : Nat → CmdResult := fun _ => .completed [(false, "a\n")] 0

/-- Transport behaviour: the first command exits 2, later ones succeed. -/
def envFailFirst : Nat → CmdResult
  | 0 => .completed [] 2
  | _ => .completed [] 0

/-- Transport behaviour: the first command faults mid-stream with an
`asyncssh.Error`, later ones succeed. -/
def envFaultFirst : Nat → CmdResult
  | 0 => .faulted [(true, "oops\n")] "Channel closed"
  | _ => .completed [] 0

/-- A two-node fleet configuration: one healthy node, one failing node. -/
def cfgFleet : Config :=
  { nodes := [cfgA, { cfgB with name := "n2" }], log_dir := "logs"
    source_path := some "config.yaml" }

/-- A fleet whose every node has per-node logging disabled. -/
def cfgFleetNoLogs : Config :=
  { nodes := [cfgNoLogs], log_dir := "logs", source_path := some "config.yaml" }

/-- Per-node connect behaviour for `cfgFleet`: both nodes connect. -/
def connFleet : Nat → ConnectResult := fun _ => .ok

/-- Per-node command behaviour for `cfgFleet`: node 0 succeeds, node 1 hits
a failing first command. -/
def envFleet : Nat → Nat → CmdResult
  | 0 => envOkA
  | _ => envFailFirst

/-! ### Basic lemmas about the embedded engine -/

theorem runCommandEvents_snd (log : Bool) (cr : CmdResult) :
    (runCommandEvents log cr).2 = cmdOK cr := by
  cases cr <;> simp [runCommandEvents, cmdOK]

theorem foldl_applyEv_output_lines (tr : List Ev) : ∀ s : NodeState,
    (tr.foldl applyEv s).output_lines = s.output_lines ++ histOf tr := by
  induction tr with
  | nil => intro s; simp [histOf]
  | cons e rest ih =>
      intro s
      cases e <;> simp [applyEv, histOf, ih, List.filterMap_cons]

theorem foldl_applyEv_status (tr : List Ev) : ∀ s : NodeState,
    (tr.foldl applyEv s).status = (setStatusesOf tr).getLastD s.status := by
  induction tr with
  | nil => intro s; simp [setStatusesOf]
  | cons e rest ih =>
      intro s
      rw [List.foldl_cons, ih]
      cases e
      case setStatus s2 =>
        rw [show setStatusesOf (Ev.setStatus s2 :: rest) = s2 :: setStatusesOf rest from rfl,
          List.getLastD_cons]
        rfl
      all_goals rfl

theorem foldl_applyEv_error (tr : List Ev) : ∀ s : NodeState,
    (tr.foldl applyEv s).error_message = (setErrorsOf tr).getLastD s.error_message := by
  induction tr with
  | nil => intro s; simp [setErrorsOf]
  | cons e rest ih =>
      intro s
      rw [List.foldl_cons, ih]
      cases e
      case setError m =>
        rw [show setErrorsOf (Ev.setError m :: rest) = m :: setErrorsOf rest from rfl,
          List.getLastD_cons]
        rfl
      all_goals rfl

theorem foldl_applyEv_log_file (tr : List Ev) : ∀ s : NodeState,
    (tr.foldl applyEv s).log_file = s.log_file := by
  induction tr with
  | nil => intro s; rfl
  | cons e rest ih =>
      intro s
      cases e <;> simp [applyEv, ih]

/-! ### Distribution of trace observers over the emission blocks -/

@[simp] theorem sinkStatuses_append (a b : List Ev) :
    sinkStatuses (a ++ b) = sinkStatuses a ++ sinkStatuses b :=
  List.filterMap_append a b _

@[simp] theorem histOf_append (a b : List Ev) :
    histOf (a ++ b) = histOf a ++ histOf b :=
  List.filterMap_append a b _

@[simp] theorem recsOf_append (a b : List Ev) :
    recsOf (a ++ b) = recsOf a ++ recsOf b :=
  List.filterMap_append a b _

@[simp] theorem setStatusesOf_append (a b : List Ev) :
    setStatusesOf (a ++ b) = setStatusesOf a ++ setStatusesOf b :=
  List.filterMap_append a b _

@[simp] theorem setErrorsOf_append (a b : List Ev) :
    setErrorsOf (a ++ b) = setErrorsOf a ++ setErrorsOf b :=
  List.filterMap_append a b _

@[simp] theorem attemptsOf_append (a b : List Ev) :
    attemptsOf (a ++ b) = attemptsOf a ++ attemptsOf b :=
  List.filterMap_append a b _

@[simp] theorem sinkStatuses_nil : sinkStatuses [] = [] := rfl
@[simp] theorem histOf_nil : histOf [] = [] := rfl
@[simp] theorem recsOf_nil : recsOf [] = [] := rfl
@[simp] theorem setStatusesOf_nil : setStatusesOf [] = [] := rfl
@[simp] theorem setErrorsOf_nil : setErrorsOf [] = [] := rfl
@[simp] theorem attemptsOf_nil : attemptsOf [] = [] := rfl

@[simp] theorem sinkStatuses_emitOutput (log : Bool) (l : String) :
    sinkStatuses (emitOutput log l) = [] := by
  cases log <;> simp [emitOutput, sinkStatuses]

@[simp] theorem histOf_emitOutput (log : Bool) (l : String) :
    histOf (emitOutput log l) = [l] := by
  cases log <;> simp [emitOutput, histOf]

@[simp] theorem recsOf_emitOutput (log : Bool) (l : String) :
    recsOf (emitOutput log l) = if log then [l ++ "\n"] else [] := by
  cases log <;> simp [emitOutput, recsOf]

@[simp] theorem setStatusesOf_emitOutput (log : Bool) (l : String) :
    setStatusesOf (emitOutput log l) = [] := by
  cases log <;> simp [emitOutput, setStatusesOf]

@[simp] theorem setErrorsOf_emitOutput (log : Bool) (l : String) :
    setErrorsOf (emitOutput log l) = [] := by
  cases log <;> simp [emitOutput, setErrorsOf]

@[simp] theorem attemptsOf_emitOutput (log : Bool) (l : String) :
    attemptsOf (emitOutput log l) = [] := by
  cases log <;> simp [emitOutput, attemptsOf]

@[simp] theorem sinkStatuses_emitStatus (s : NodeStatus) :
    sinkStatuses (emitStatus s) = [s] := by
  simp [emitStatus, sinkStatuses]

@[simp] theorem histOf_emitStatus (s : NodeStatus) :
    histOf (emitStatus s) = [] := by
  simp [emitStatus, histOf]

@[simp] theorem recsOf_emitStatus (s : NodeStatus) :
    recsOf (emitStatus s) = [] := by
  simp [emitStatus, recsOf]

@[simp] theorem setStatusesOf_emitStatus (s : NodeStatus) :
    setStatusesOf (emitStatus s) = [s] := by
  simp [emitStatus, setStatusesOf]

@[simp] theorem setErrorsOf_emitStatus (s : NodeStatus) :
    setErrorsOf (emitStatus s) = [] := by
  simp [emitStatus, setErrorsOf]

@[simp] theorem attemptsOf_emitStatus (s : NodeStatus) :
    attemptsOf (emitStatus s) = [] := by
  simp [emitStatus, attemptsOf]

@[simp] theorem sinkStatuses_setError_cons (m : String) (tr : List Ev) :
    sinkStatuses (Ev.setError m :: tr) = sinkStatuses tr := rfl

@[simp] theorem histOf_setError_cons (m : String) (tr : List Ev) :
    histOf (Ev.setError m :: tr) = histOf tr := rfl

@[simp] theorem recsOf_setError_cons (m : String) (tr : List Ev) :
    recsOf (Ev.setError m :: tr) = recsOf tr := rfl

@[simp] theorem setStatusesOf_setError_cons (m : String) (tr : List Ev) :
    setStatusesOf (Ev.setError m :: tr) = setStatusesOf tr := rfl

@[simp] theorem setErrorsOf_setError_cons (m : String) (tr : List Ev) :
    setErrorsOf (Ev.setError m :: tr) = m :: setErrorsOf tr := rfl

@[simp] theorem attemptsOf_setError_cons (m : String) (tr : List Ev) :
    attemptsOf (Ev.setError m :: tr) = attemptsOf tr := rfl

@[simp] theorem sinkStatuses_setCurrentCmd_cons (i : Nat) (c : String) (tr : List Ev) :
    sinkStatuses (Ev.setCurrentCmd i c :: tr) = sinkStatuses tr := rfl

@[simp] theorem histOf_setCurrentCmd_cons (i : Nat) (c : String) (tr : List Ev) :
    histOf (Ev.setCurrentCmd i c :: tr) = histOf tr := rfl

@[simp] theorem recsOf_setCurrentCmd_cons (i : Nat) (c : String) (tr : List Ev) :
    recsOf (Ev.setCurrentCmd i c :: tr) = recsOf tr := rfl

@[simp] theorem setStatusesOf_setCurrentCmd_cons (i : Nat) (c : String) (tr : List Ev) :
    setStatusesOf (Ev.setCurrentCmd i c :: tr) = setStatusesOf tr := rfl

@[simp] theorem setErrorsOf_setCurrentCmd_cons (i : Nat) (c : String) (tr : List Ev) :
    setErrorsOf (Ev.setCurrentCmd i c :: tr) = setErrorsOf tr := rfl

@[simp] theorem attemptsOf_setCurrentCmd_cons (i : Nat) (c : String) (tr : List Ev) :
    attemptsOf (Ev.setCurrentCmd i c :: tr) = (i, c) :: attemptsOf tr := rfl

@[simp] theorem sinkStatuses_emitLines (log : Bool) (ls : List String) :
    sinkStatuses (emitLines log ls) = [] := by
  induction ls with
  | nil => rfl
  | cons l rest ih => simp [emitLines, ih]

@[simp] theorem histOf_emitLines (log : Bool) (ls : List String) :
    histOf (emitLines log ls) = ls := by
  induction ls with
  | nil => rfl
  | cons l rest ih => simp [emitLines, ih]

@[simp] theorem recsOf_emitLines (log : Bool) (ls : List String) :
    recsOf (emitLines log ls) = if log then ls.map (fun l => l ++ "\n") else [] := by
  induction ls with
  | nil => cases log <;> rfl
  | cons l rest ih => cases log <;> simp_all [emitLines]

@[simp] theorem setStatusesOf_emitLines (log : Bool) (ls : List String) :
    setStatusesOf (emitLines log ls) = [] := by
  induction ls with
  | nil => rfl
  | cons l rest ih => simp [emitLines, ih]

@[simp] theorem setErrorsOf_emitLines (log : Bool) (ls : List String) :
    setErrorsOf (emitLines log ls) = [] := by
  induction ls with
  | nil => rfl
  | cons l rest ih => simp [emitLines, ih]

@[simp] theorem attemptsOf_emitLines (log : Bool) (ls : List String) :
    attemptsOf (emitLines log ls) = [] := by
  induction ls with
  | nil => rfl
  | cons l rest ih => simp [emitLines, ih]

@[simp] theorem sinkStatuses_cmdEvents (log : Bool) (cr : CmdResult) :
    sinkStatuses ((runCommandEvents log cr).1) = [] := by
  cases cr with
  | completed lines code => cases hc : code == 0 <;> simp [runCommandEvents, hc]
  | faulted lines msg => simp [runCommandEvents]

@[simp] theorem histOf_cmdEvents (log : Bool) (cr : CmdResult) :
    histOf ((runCommandEvents log cr).1) = cmdOutLines cr := by
  cases cr with
  | completed lines code => cases hc : code == 0 <;> simp [runCommandEvents, cmdOutLines, hc]
  | faulted lines msg => simp [runCommandEvents, cmdOutLines]

@[simp] theorem recsOf_cmdEvents (log : Bool) (cr : CmdResult) :
    recsOf ((runCommandEvents log cr).1) =
      if log then (cmdOutLines cr).map (fun l => l ++ "\n") else [] := by
  cases cr with
  | completed lines code =>
      cases hc : code == 0 <;> cases log <;> simp [runCommandEvents, cmdOutLines, hc]
  | faulted lines msg => cases log <;> simp [runCommandEvents, cmdOutLines]

@[simp] theorem setStatusesOf_cmdEvents (log : Bool) (cr : CmdResult) :
    setStatusesOf ((runCommandEvents log cr).1) = [] := by
  cases cr with
  | completed lines code => cases hc : code == 0 <;> simp [runCommandEvents, hc]
  | faulted lines msg => simp [runCommandEvents]

@[simp] theorem setErrorsOf_cmdEvents (log : Bool) (cr : CmdResult) :
    setErrorsOf ((runCommandEvents log cr).1) = [] := by
  cases cr with
  | completed lines code => cases hc : code == 0 <;> simp [runCommandEvents, hc]
  | faulted lines msg => simp [runCommandEvents]

@[simp] theorem attemptsOf_cmdEvents (log : Bool) (cr : CmdResult) :
    attemptsOf ((runCommandEvents log cr).1) = [] := by
  cases cr with
  | completed lines code => cases hc : code == 0 <;> simp [runCommandEvents, hc]
  | faulted lines msg => simp [runCommandEvents]

/-! ### Characterization of the command loop and the node driver -/

theorem runLoop_statuses (cfg : NodeConfig) (log : Bool) (env : Nat → CmdResult) :
    ∀ (cmds : List String) (i : Nat),
      (sinkStatuses (runLoop cfg log env i cmds) = [NodeStatus.success] ∧
        setStatusesOf (runLoop cfg log env i cmds) = [NodeStatus.success]) ∨
      (sinkStatuses (runLoop cfg log env i cmds) = [NodeStatus.failed] ∧
        setStatusesOf (runLoop cfg log env i cmds) = [NodeStatus.failed]) := by
  intro cmds
  induction cmds with
  | nil => intro i; left; simp [runLoop]
  | cons c rest ih =>
      intro i
      by_cases h : (!(runCommandEvents log (env i)).2 && cfg.stop_on_error) = true
      · right; simp [runLoop, h]
      · rw [Bool.not_eq_true] at h
        rcases ih (i + 1) with ⟨h3, h4⟩ | ⟨h3, h4⟩
        · left; simp [runLoop, h, h3, h4]
        · right; simp [runLoop, h, h3, h4]

theorem sinkStatuses_runNode_ok (cfg : NodeConfig) (log : Bool) (env : Nat → CmdResult) :
    sinkStatuses (runNode cfg log .ok env) =
      NodeStatus.connecting :: NodeStatus.running ::
        sinkStatuses (runLoop cfg log env 0 cfg.commands) := by
  cases hw : cfg.work_dir <;> simp [runNode, hw]

theorem sinkStatuses_runNode_sshErr (cfg : NodeConfig) (log : Bool)
    (env : Nat → CmdResult) (m : String) :
    sinkStatuses (runNode cfg log (.sshErr m) env) =
      [NodeStatus.connecting, NodeStatus.failed] := by
  simp [runNode]

theorem sinkStatuses_runNode_osErr (cfg : NodeConfig) (log : Bool)
    (env : Nat → CmdResult) (m : String) :
    sinkStatuses (runNode cfg log (.osErr m) env) =
      [NodeStatus.connecting, NodeStatus.failed] := by
  simp [runNode]

theorem setStatusesOf_runNode_ok (cfg : NodeConfig) (log : Bool) (env : Nat → CmdResult) :
    setStatusesOf (runNode cfg log .ok env) =
      NodeStatus.connecting :: NodeStatus.running ::
        setStatusesOf (runLoop cfg log env 0 cfg.commands) := by
  cases hw : cfg.work_dir <;> simp [runNode, hw]

theorem setStatusesOf_runNode_sshErr (cfg : NodeConfig) (log : Bool)
    (env : Nat → CmdResult) (m : String) :
    setStatusesOf (runNode cfg log (.sshErr m) env) =
      [NodeStatus.connecting, NodeStatus.failed] := by
  simp [runNode]

theorem setStatusesOf_runNode_osErr (cfg : NodeConfig) (log : Bool)
    (env : Nat → CmdResult) (m : String) :
    setStatusesOf (runNode cfg log (.osErr m) env) =
      [NodeStatus.connecting, NodeStatus.failed] := by
  simp [runNode]

theorem setErrorsOf_runNode_ok (cfg : NodeConfig) (log : Bool) (env : Nat → CmdResult) :
    setErrorsOf (runNode cfg log .ok env) =
      setErrorsOf (runLoop cfg log env 0 cfg.commands) := by
  cases hw : cfg.work_dir <;> simp [runNode, hw]

theorem attemptsOf_runNode_ok (cfg : NodeConfig) (log : Bool) (env : Nat → CmdResult) :
    attemptsOf (runNode cfg log .ok env) =
      attemptsOf (runLoop cfg log env 0 cfg.commands) := by
  cases hw : cfg.work_dir <;> simp [runNode, hw]

theorem runLoop_stop_fail (cfg : NodeConfig) (log : Bool) (env : Nat → CmdResult)
    (hstop : cfg.stop_on_error = true) :
    ∀ (cmds : List String) (i j : Nat), j < cmds.length →
      (∀ k, k < j → cmdOK (env (i + k)) = true) → cmdOK (env (i + j)) = false →
      attemptsOf (runLoop cfg log env i cmds) =
        (List.range (j + 1)).map (fun k => (i + k, cmds.getD k "")) ∧
      setStatusesOf (runLoop cfg log env i cmds) = [NodeStatus.failed] ∧
      sinkStatuses (runLoop cfg log env i cmds) = [NodeStatus.failed] ∧
      setErrorsOf (runLoop cfg log env i cmds) =
        ["Command failed: " ++ cmds.getD j ""] := by
  intro cmds
  induction cmds with
  | nil => intro i j hj _ _; exact absurd hj (by simp)
  | cons c rest ih =>
      intro i j hj hpre hfail
      cases j with
      | zero =>
          have h0 : cmdOK (env i) = false := by simpa using hfail
          have hcond : (!(runCommandEvents log (env i)).2 && cfg.stop_on_error) = true := by
            simp [runCommandEvents_snd, h0, hstop]
          refine ⟨?_, ?_, ?_, ?_⟩ <;> simp [runLoop, hcond, List.range_succ]
      | succ k =>
          have h0 : cmdOK (env i) = true := by
            have := hpre 0 (Nat.succ_pos k)
            simpa using this
          have hcond : (!(runCommandEvents log (env i)).2 && cfg.stop_on_error) = false := by
            simp [runCommandEvents_snd, h0]
          have hj2 : k < rest.length := by simpa using hj
          have hpre2 : ∀ m, m < k → cmdOK (env (i + 1 + m)) = true := by
            intro m hm
            have h1 := hpre (m + 1) (by omega)
            have harith : i + (m + 1) = i + 1 + m := by omega
            rwa [harith] at h1
          have hfail2 : cmdOK (env (i + 1 + k)) = false := by
            have harith : i + (k + 1) = i + 1 + k := by omega
            rwa [harith] at hfail
          rcases ih (i + 1) k hj2 hpre2 hfail2 with ⟨ha, hs, hk, he⟩
          refine ⟨?_, ?_, ?_, ?_⟩
          · have hl : attemptsOf (runLoop cfg log env i (c :: rest)) =
                (i, c) :: (List.range (k + 1)).map (fun m => (i + 1 + m, rest.getD m "")) := by
              simp [runLoop, hcond, ha]
            rw [hl]
            conv_rhs => rw [List.range_succ_eq_map, List.map_cons, List.map_map]
            refine congrArg₂ List.cons (by rfl) (List.map_congr_left ?_)
            intro m _
            have harith : i + 1 + m = i + (m + 1) := by omega
            simp [Function.comp_def, harith]
          · simp [runLoop, hcond, hs]
          · simp [runLoop, hcond, hk]
          · simp [runLoop, hcond, he]

theorem runLoop_continue (cfg : NodeConfig) (log : Bool) (env : Nat → CmdResult)
    (hstop : cfg.stop_on_error = false) :
    ∀ (cmds : List String) (i : Nat),
      attemptsOf (runLoop cfg log env i cmds) =
        (List.range cmds.length).map (fun k => (i + k, cmds.getD k "")) ∧
      setStatusesOf (runLoop cfg log env i cmds) = [NodeStatus.success] ∧
      sinkStatuses (runLoop cfg log env i cmds) = [NodeStatus.success] ∧
      setErrorsOf (runLoop cfg log env i cmds) = [] := by
  intro cmds
  induction cmds with
  | nil => intro i; refine ⟨?_, ?_, ?_, ?_⟩ <;> simp [runLoop]
  | cons c rest ih =>
      intro i
      have hcond : (!(runCommandEvents log (env i)).2 && cfg.stop_on_error) = false := by
        simp [hstop]
      rcases ih (i + 1) with ⟨ha, hs, hk, he⟩
      refine ⟨?_, ?_, ?_, ?_⟩
      · have hl : attemptsOf (runLoop cfg log env i (c :: rest)) =
            (i, c) :: (List.range rest.length).map (fun m => (i + 1 + m, rest.getD m "")) := by
          simp [runLoop, hcond, ha]
        rw [hl]
        conv_rhs => rw [show (c :: rest).length = rest.length + 1 from rfl,
          List.range_succ_eq_map, List.map_cons, List.map_map]
        refine congrArg₂ List.cons (by rfl) (List.map_congr_left ?_)
        intro m _
        have harith : i + 1 + m = i + (m + 1) := by omega
        simp [Function.comp_def, harith]
      · simp [runLoop, hcond, hs]
      · simp [runLoop, hcond, hk]
      · simp [runLoop, hcond, he]

theorem runLoop_reaches (cfg : NodeConfig) (log : Bool) (env : Nat → CmdResult) :
    ∀ (cmds : List String) (i j : Nat), j < cmds.length →
      (∀ k, k < j → cmdOK (env (i + k)) = true) →
      ∀ l, l ∈ cmdOutLines (env (i + j)) →
        l ∈ histOf (runLoop cfg log env i cmds) := by
  intro cmds
  induction cmds with
  | nil => intro i j hj; exact absurd hj (by simp)
  | cons c rest ih =>
      intro i j hj hpre l hl
      cases j with
      | zero =>
          have hl0 : l ∈ cmdOutLines (env i) := by simpa using hl
          by_cases hcond : (!(runCommandEvents log (env i)).2 && cfg.stop_on_error) = true
          · simp [runLoop, hcond, List.mem_append]
            tauto
          · rw [Bool.not_eq_true] at hcond
            simp [runLoop, hcond, List.mem_append]
            tauto
      | succ k =>
          have h0 : cmdOK (env i) = true := by
            have := hpre 0 (Nat.succ_pos k)
            simpa using this
          have hcond : (!(runCommandEvents log (env i)).2 && cfg.stop_on_error) = false := by
            simp [runCommandEvents_snd, h0]
          have hj2 : k < rest.length := by simpa using hj
          have hpre2 : ∀ m, m < k → cmdOK (env (i + 1 + m)) = true := by
            intro m hm
            have h1 := hpre (m + 1) (by omega)
            have harith : i + (m + 1) = i + 1 + m := by omega
            rwa [harith] at h1
          have hl2 : l ∈ cmdOutLines (env (i + 1 + k)) := by
            have harith : i + (k + 1) = i + 1 + k := by omega
            rwa [harith] at hl
          have := ih (i + 1) k hj2 hpre2 l hl2
          simp [runLoop, hcond, List.mem_append]
          tauto

theorem recsOf_runLoop_log (cfg : NodeConfig) (env : Nat → CmdResult) :
    ∀ (cmds : List String) (i : Nat),
      recsOf (runLoop cfg true env i cmds) =
        (histOf (runLoop cfg true env i cmds)).map (fun l => l ++ "\n") := by
  intro cmds
  induction cmds with
  | nil => intro i; simp [runLoop]
  | cons c rest ih =>
      intro i
      by_cases hcond : (!(runCommandEvents true (env i)).2 && cfg.stop_on_error) = true
      · simp [runLoop, hcond]
      · rw [Bool.not_eq_true] at hcond
        simp [runLoop, hcond, ih]

theorem recsOf_runNode_log (cfg : NodeConfig) (conn : ConnectResult)
    (env : Nat → CmdResult) :
    recsOf (runNode cfg true conn env) =
      (histOf (runNode cfg true conn env)).map (fun l => l ++ "\n") := by
  cases conn with
  | ok => cases hw : cfg.work_dir <;> simp [runNode, hw, recsOf_runLoop_log]
  | sshErr m => simp [runNode]
  | osErr m => simp [runNode]

/-! ### Text lines of a newline-terminated file -/

theorem splitNl_ne_nil : ∀ cs : List Char, splitNl cs ≠ [] := by
  intro cs
  induction cs with
  | nil => simp [splitNl]
  | cons c rest ih =>
      by_cases h : c = '\n'
      · simp [splitNl, h]
      · simp only [splitNl, if_neg h]
        cases hs : splitNl rest with
        | nil => exact absurd hs ih
        | cons p ps => simp

theorem splitNl_append_nl (cs : List Char) :
    ∀ d : List Char, ('\n' : Char) ∉ d →
      splitNl (d ++ '\n' :: cs) = d :: splitNl cs := by
  intro d
  induction d with
  | nil => intro _; simp [splitNl]
  | cons ch d2 ih =>
      intro h
      have hch : ch ≠ '\n' := by
        intro hc
        exact h (by simp [hc])
      have h2 : ('\n' : Char) ∉ d2 := fun hm => h (by simp [hm])
      rw [List.cons_append]
      simp only [splitNl, if_neg hch, ih h2]

theorem textLinesC_concat : ∀ ls : List String,
    (∀ l ∈ ls, ('\n' : Char) ∉ l.data) →
    textLinesC (ls.foldr (fun l acc => (l ++ "\n").data ++ acc) []) =
      ls.map String.data := by
  intro ls
  induction ls with
  | nil => intro _; simp [textLinesC, splitNl]
  | cons l rest ih =>
      intro h
      have hstep : (l ++ "\n").data ++ (rest.foldr (fun l acc => (l ++ "\n").data ++ acc) []) =
          l.data ++ '\n' :: (rest.foldr (fun l acc => (l ++ "\n").data ++ acc) []) := by
        rw [show (l ++ "\n").data = l.data ++ ['\n'] from rfl, List.append_assoc]
        rfl
      simp only [List.foldr_cons, hstep]
      rw [show textLinesC (l.data ++ '\n' :: (rest.foldr (fun l acc => (l ++ "\n").data ++ acc) [])) =
          (splitNl (l.data ++ '\n' :: (rest.foldr (fun l acc => (l ++ "\n").data ++ acc) []))).dropLast
        from rfl]
      rw [splitNl_append_nl _ l.data (h l (List.mem_cons_self l rest))]
      rw [List.dropLast_cons_of_ne_nil (splitNl_ne_nil _)]
      rw [show (splitNl (rest.foldr (fun l acc => (l ++ "\n").data ++ acc) [])).dropLast =
          textLinesC (rest.foldr (fun l acc => (l ++ "\n").data ++ acc) []) from rfl]
      rw [ih (fun x hx => h x (List.mem_cons_of_mem l hx))]
      rfl

/-! ### No error-message assignment before the FAILED delivery -/

@[simp] theorem sebfs_setStatus_cons (s : NodeStatus) (tr : List Ev) :
    setErrorBeforeFailedSink (Ev.setStatus s :: tr) = setErrorBeforeFailedSink tr := rfl

@[simp] theorem sebfs_appendHistory_cons (l : String) (tr : List Ev) :
    setErrorBeforeFailedSink (Ev.appendHistory l :: tr) = setErrorBeforeFailedSink tr := rfl

@[simp] theorem sebfs_writeLog_cons (r : String) (tr : List Ev) :
    setErrorBeforeFailedSink (Ev.writeLog r :: tr) = setErrorBeforeFailedSink tr := rfl

@[simp] theorem sebfs_sinkOutput_cons (l : String) (tr : List Ev) :
    setErrorBeforeFailedSink (Ev.sinkOutput l :: tr) = setErrorBeforeFailedSink tr := rfl

@[simp] theorem sebfs_setCurrentCmd_cons (i : Nat) (c : String) (tr : List Ev) :
    setErrorBeforeFailedSink (Ev.setCurrentCmd i c :: tr) = setErrorBeforeFailedSink tr := rfl

@[simp] theorem sebfs_setError_cons (m : String) (tr : List Ev) :
    setErrorBeforeFailedSink (Ev.setError m :: tr) = true := rfl

theorem sebfs_sinkStatus_cons (s : NodeStatus) (tr : List Ev) :
    setErrorBeforeFailedSink (Ev.sinkStatus s :: tr) =
      if s = NodeStatus.failed then false else setErrorBeforeFailedSink tr := rfl

@[simp] theorem sebfs_emitOutput (log : Bool) (l : String) (r : List Ev) :
    setErrorBeforeFailedSink (emitOutput log l ++ r) = setErrorBeforeFailedSink r := by
  cases log <;> simp [emitOutput]

@[simp] theorem sebfs_emitLines (log : Bool) (ls : List String) (r : List Ev) :
    setErrorBeforeFailedSink (emitLines log ls ++ r) = setErrorBeforeFailedSink r := by
  induction ls with
  | nil => simp [emitLines]
  | cons l rest ih => simp [emitLines, ih]

theorem sebfs_emitStatus (s : NodeStatus) (r : List Ev) :
    setErrorBeforeFailedSink (emitStatus s ++ r) =
      if s = NodeStatus.failed then false else setErrorBeforeFailedSink r := by
  simp [emitStatus, sebfs_sinkStatus_cons]

@[simp] theorem sebfs_cmdEvents (log : Bool) (cr : CmdResult) (r : List Ev) :
    setErrorBeforeFailedSink ((runCommandEvents log cr).1 ++ r) =
      setErrorBeforeFailedSink r := by
  cases cr with
  | completed lines code =>
      cases hc : code == 0 <;> simp [runCommandEvents, hc, List.append_assoc]
  | faulted lines msg => simp [runCommandEvents, List.append_assoc]

theorem sebfs_runLoop (cfg : NodeConfig) (log : Bool) (env : Nat → CmdResult) :
    ∀ (cmds : List String) (i : Nat),
      setErrorBeforeFailedSink (runLoop cfg log env i cmds) = false := by
  intro cmds
  induction cmds with
  | nil =>
      intro i
      simp [runLoop, sebfs_emitStatus]
      rfl
  | cons c rest ih =>
      intro i
      by_cases hcond : (!(runCommandEvents log (env i)).2 && cfg.stop_on_error) = true
      · simp [runLoop, hcond, sebfs_emitStatus]
      · rw [Bool.not_eq_true] at hcond
        simp [runLoop, hcond, ih]

theorem sebfs_runNode (cfg : NodeConfig) (log : Bool) (conn : ConnectResult)
    (env : Nat → CmdResult) :
    setErrorBeforeFailedSink (runNode cfg log conn env) = false := by
  cases conn with
  | ok =>
      cases hw : cfg.work_dir <;>
        simp [runNode, hw, sebfs_emitStatus, sebfs_runLoop]
  | sshErr m => simp [runNode, sebfs_emitStatus]
  | osErr m => simp [runNode, sebfs_emitStatus]

theorem scan_takeWhile (tr : List Ev) :
    setErrorBeforeFailedSink tr = false →
    errorMsgAt (tr.takeWhile (fun e => !(e == Ev.sinkStatus NodeStatus.failed))) = "" := by
  induction tr with
  | nil => intro _; rfl
  | cons e rest ih =>
      intro h
      cases e with
      | setError m => simp at h
      | sinkStatus s =>
          by_cases hs : s = NodeStatus.failed
          · subst hs
            rw [List.takeWhile_cons, if_neg (by simp)]
            rfl
          · rw [List.takeWhile_cons, if_pos (by simp [hs])]
            have h2 : setErrorBeforeFailedSink rest = false := by
              rw [sebfs_sinkStatus_cons, if_neg hs] at h
              exact h
            exact ih h2
      | setStatus s =>
          rw [List.takeWhile_cons, if_pos (by simp)]
          exact ih (by simpa using h)
      | appendHistory l =>
          rw [List.takeWhile_cons, if_pos (by simp)]
          exact ih (by simpa using h)
      | writeLog r =>
          rw [List.takeWhile_cons, if_pos (by simp)]
          exact ih (by simpa using h)
      | sinkOutput l =>
          rw [List.takeWhile_cons, if_pos (by simp)]
          exact ih (by simpa using h)
      | setCurrentCmd i c =>
          rw [List.takeWhile_cons, if_pos (by simp)]
          exact ih (by simpa using h)

/-! ### The actual emission order of `_emit_output` -/

@[simp] theorem ebo_setStatus_cons (log : Bool) (s : NodeStatus) (tr : List Ev) :
    emitBlocksOK log (Ev.setStatus s :: tr) = emitBlocksOK log tr := rfl

@[simp] theorem ebo_sinkStatus_cons (log : Bool) (s : NodeStatus) (tr : List Ev) :
    emitBlocksOK log (Ev.sinkStatus s :: tr) = emitBlocksOK log tr := rfl

@[simp] theorem ebo_setError_cons (log : Bool) (m : String) (tr : List Ev) :
    emitBlocksOK log (Ev.setError m :: tr) = emitBlocksOK log tr := rfl

@[simp] theorem ebo_setCurrentCmd_cons (log : Bool) (i : Nat) (c : String) (tr : List Ev) :
    emitBlocksOK log (Ev.setCurrentCmd i c :: tr) = emitBlocksOK log tr := rfl

@[simp] theorem ebo_emitOutput (log : Bool) (l : String) (r : List Ev) :
    emitBlocksOK log (emitOutput log l ++ r) = emitBlocksOK log r := by
  cases log <;> simp [emitOutput, emitBlocksOK]

@[simp] theorem ebo_emitStatus (log : Bool) (s : NodeStatus) (r : List Ev) :
    emitBlocksOK log (emitStatus s ++ r) = emitBlocksOK log r := by
  simp [emitStatus]

@[simp] theorem ebo_emitLines (log : Bool) (ls : List String) (r : List Ev) :
    emitBlocksOK log (emitLines log ls ++ r) = emitBlocksOK log r := by
  induction ls with
  | nil => simp [emitLines]
  | cons l rest ih => simp [emitLines, ih]

@[simp] theorem ebo_cmdEvents (log : Bool) (cr : CmdResult) (r : List Ev) :
    emitBlocksOK log ((runCommandEvents log cr).1 ++ r) = emitBlocksOK log r := by
  cases cr with
  | completed lines code =>
      cases hc : code == 0 <;> simp [runCommandEvents, hc, List.append_assoc]
  | faulted lines msg => simp [runCommandEvents, List.append_assoc]

@[simp] theorem ebo_emitOutput_last (log : Bool) (l : String) :
    emitBlocksOK log (emitOutput log l) = true := by
  have h := ebo_emitOutput log l []
  simpa using h

theorem ebo_runLoop (cfg : NodeConfig) (log : Bool) (env : Nat → CmdResult) :
    ∀ (cmds : List String) (i : Nat),
      emitBlocksOK log (runLoop cfg log env i cmds) = true := by
  intro cmds
  induction cmds with
  | nil => intro i; simp [runLoop, emitBlocksOK]
  | cons c rest ih =>
      intro i
      by_cases hcond : (!(runCommandEvents log (env i)).2 && cfg.stop_on_error) = true
      · simp [runLoop, hcond, emitBlocksOK]
      · rw [Bool.not_eq_true] at hcond
        simp [runLoop, hcond, ih]

theorem ebo_runNode (cfg : NodeConfig) (log : Bool) (conn : ConnectResult)
    (env : Nat → CmdResult) :
    emitBlocksOK log (runNode cfg log conn env) = true := by
  cases conn with
  | ok => cases hw : cfg.work_dir <;> simp [runNode, hw, ebo_runLoop]
  | sshErr m => simp [runNode, emitBlocksOK]
  | osErr m => simp [runNode, emitBlocksOK]

/-! ### Final-state facts and fleet-level helpers -/

theorem finalState_status_terminal (cfg : NodeConfig) (log : Bool)
    (conn : ConnectResult) (env : Nat → CmdResult) :
    (finalState cfg log conn env).status = NodeStatus.success ∨
    (finalState cfg log conn env).status = NodeStatus.failed := by
  unfold finalState
  rw [foldl_applyEv_status]
  cases conn with
  | ok =>
      rw [setStatusesOf_runNode_ok]
      rcases runLoop_statuses cfg log env cfg.commands 0 with ⟨_, h⟩ | ⟨_, h⟩
      · left; rw [h]; rfl
      · right; rw [h]; rfl
  | sshErr m => right; rw [setStatusesOf_runNode_sshErr]; rfl
  | osErr m => right; rw [setStatusesOf_runNode_osErr]; rfl

theorem finalState_log_file (cfg : NodeConfig) (log : Bool)
    (conn : ConnectResult) (env : Nat → CmdResult) :
    (finalState cfg log conn env).log_file =
      if log then some (cfg.name ++ ".log") else none := by
  unfold finalState
  rw [foldl_applyEv_log_file]
  rfl

theorem runAllStates_terminal (c : Config) (en : Bool)
    (connOf : Nat → ConnectResult) (envOf : Nat → Nat → CmdResult) :
    (runAllStates c en connOf envOf).all (fun p => isTerminal p.2.status) = true := by
  rw [List.all_eq_true]
  intro p hp
  simp only [runAllStates, List.mem_map] at hp
  obtain ⟨q, _, hpe⟩ := hp
  rcases finalState_status_terminal q.2 (nodeLogAssigned c en q.2) (connOf q.1) (envOf q.1)
    with h | h <;> simp [← hpe, isTerminal, h]

theorem failedNames_isEmpty (sts : List (String × NodeState)) :
    (failedNames sts).isEmpty = !(sts.any (fun p => p.2.status == NodeStatus.failed)) := by
  induction sts with
  | nil => rfl
  | cons p rest ih =>
      cases h : p.2.status == NodeStatus.failed
      · simpa [failedNames, List.filter_cons, h] using ih
      · simp [failedNames, List.filter_cons, h]

/-! ### The history/log identity at every observable prefix -/

@[simp] theorem recsOf_setStatus_cons (s : NodeStatus) (tr : List Ev) :
    recsOf (Ev.setStatus s :: tr) = recsOf tr := rfl

@[simp] theorem recsOf_sinkStatus_cons (s : NodeStatus) (tr : List Ev) :
    recsOf (Ev.sinkStatus s :: tr) = recsOf tr := rfl

@[simp] theorem recsOf_appendHistory_cons (l : String) (tr : List Ev) :
    recsOf (Ev.appendHistory l :: tr) = recsOf tr := rfl

@[simp] theorem recsOf_writeLog_cons (r : String) (tr : List Ev) :
    recsOf (Ev.writeLog r :: tr) = r :: recsOf tr := rfl

@[simp] theorem recsOf_sinkOutput_cons (l : String) (tr : List Ev) :
    recsOf (Ev.sinkOutput l :: tr) = recsOf tr := rfl

@[simp] theorem histOf_setStatus_cons (s : NodeStatus) (tr : List Ev) :
    histOf (Ev.setStatus s :: tr) = histOf tr := rfl

@[simp] theorem histOf_sinkStatus_cons (s : NodeStatus) (tr : List Ev) :
    histOf (Ev.sinkStatus s :: tr) = histOf tr := rfl

@[simp] theorem histOf_appendHistory_cons (l : String) (tr : List Ev) :
    histOf (Ev.appendHistory l :: tr) = l :: histOf tr := rfl

@[simp] theorem histOf_writeLog_cons (r : String) (tr : List Ev) :
    histOf (Ev.writeLog r :: tr) = histOf tr := rfl

@[simp] theorem histOf_sinkOutput_cons (l : String) (tr : List Ev) :
    histOf (Ev.sinkOutput l :: tr) = histOf tr := rfl

theorem balanced_take (n : Nat) : ∀ tr : List Ev, emitBlocksOK true tr = true →
    isMidEmit (tr.take n) = false →
    recsOf (tr.take n) = (histOf (tr.take n)).map (fun l => l ++ "\n") := by
  induction n using Nat.strong_induction_on with
  | _ n ih =>
      intro tr hebo hmid
      cases tr with
      | nil => simp
      | cons e tail =>
          cases e with
          | appendHistory l =>
              cases tail with
              | nil => simp [emitBlocksOK] at hebo
              | cons e2 tail2 =>
                  cases e2 with
                  | writeLog r =>
                      cases tail2 with
                      | nil => simp [emitBlocksOK] at hebo
                      | cons e3 tail3 =>
                          cases e3 with
                          | sinkOutput l2 =>
                              have hr : r = l ++ "\n" := by
                                by_contra hne
                                have hne2 : (r == l ++ "\n") = false := by
                                  simpa using hne
                                simp [emitBlocksOK, hne2] at hebo
                              subst hr
                              have hl2 : l2 = l := by
                                by_contra hne
                                have hne2 : (l2 == l) = false := by
                                  simpa using hne
                                simp [emitBlocksOK, hne2] at hebo
                              subst hl2
                              have hebo3 : emitBlocksOK true tail3 = true := by
                                simpa [emitBlocksOK] using hebo
                              rcases n with _ | (_ | (_ | m))
                              · simp
                              · simp [isMidEmit] at hmid
                              · simp [List.take_succ_cons]
                              · rw [List.take_succ_cons, List.take_succ_cons,
                                  List.take_succ_cons] at hmid ⊢
                                have hmid2 : isMidEmit (tail3.take m) = false := by
                                  cases htm : tail3.take m with
                                  | nil => rfl
                                  | cons x xs =>
                                      rw [htm] at hmid
                                      simpa [isMidEmit, List.getLast?_cons_cons]
                                        using hmid
                                have hrec := ih m (by omega) tail3 hebo3 hmid2
                                simp [hrec]
                          | setStatus s => simp [emitBlocksOK] at hebo
                          | sinkStatus s => simp [emitBlocksOK] at hebo
                          | appendHistory l3 => simp [emitBlocksOK] at hebo
                          | writeLog r3 => simp [emitBlocksOK] at hebo
                          | setError m3 => simp [emitBlocksOK] at hebo
                          | setCurrentCmd i3 c3 => simp [emitBlocksOK] at hebo
                  | setStatus s => simp [emitBlocksOK] at hebo
                  | sinkStatus s => simp [emitBlocksOK] at hebo
                  | appendHistory l3 => simp [emitBlocksOK] at hebo
                  | sinkOutput l3 => simp [emitBlocksOK] at hebo
                  | setError m3 => simp [emitBlocksOK] at hebo
                  | setCurrentCmd i3 c3 => simp [emitBlocksOK] at hebo
          | writeLog r => simp [emitBlocksOK] at hebo
          | sinkOutput l => simp [emitBlocksOK] at hebo
          | setStatus s =>
              have hebo2 : emitBlocksOK true tail = true := by simpa using hebo
              cases n with
              | zero => simp
              | succ m =>
                  rw [List.take_succ_cons] at hmid ⊢
                  have hmid2 : isMidEmit (tail.take m) = false := by
                    cases htm : tail.take m with
                    | nil => rfl
                    | cons x xs =>
                        rw [htm] at hmid
                        simpa [isMidEmit, List.getLast?_cons_cons] using hmid
                  have hrec := ih m (by omega) tail hebo2 hmid2
                  simp [hrec]
          | sinkStatus s =>
              have hebo2 : emitBlocksOK true tail = true := by simpa using hebo
              cases n with
              | zero => simp
              | succ m =>
                  rw [List.take_succ_cons] at hmid ⊢
                  have hmid2 : isMidEmit (tail.take m) = false := by
                    cases htm : tail.take m with
                    | nil => rfl
                    | cons x xs =>
                        rw [htm] at hmid
                        simpa [isMidEmit, List.getLast?_cons_cons] using hmid
                  have hrec := ih m (by omega) tail hebo2 hmid2
                  simp [hrec]
          | setError m2 =>
              have hebo2 : emitBlocksOK true tail = true := by simpa using hebo
              cases n with
              | zero => simp
              | succ m =>
                  rw [List.take_succ_cons] at hmid ⊢
                  have hmid2 : isMidEmit (tail.take m) = false := by
                    cases htm : tail.take m with
                    | nil => rfl
                    | cons x xs =>
                        rw [htm] at hmid
                        simpa [isMidEmit, List.getLast?_cons_cons] using hmid
                  have hrec := ih m (by omega) tail hebo2 hmid2
                  simp [hrec]
          | setCurrentCmd i2 c2 =>
              have hebo2 : emitBlocksOK true tail = true := by simpa using hebo
              cases n with
              | zero => simp
              | succ m =>
                  rw [List.take_succ_cons] at hmid ⊢
                  have hmid2 : isMidEmit (tail.take m) = false := by
                    cases htm : tail.take m with
                    | nil => rfl
                    | cons x xs =>
                        rw [htm] at hmid
                        simpa [isMidEmit, List.getLast?_cons_cons] using hmid
                  have hrec := ih m (by omega) tail hebo2 hmid2
                  simp [hrec]

/-! ### Claims -/

/-- Claim C1: for every node, the sequence of statuses delivered through the
Event Sink, continuing from the initial `PENDING` state set at `NodeState`
creation, is a valid path of the state machine `PENDING → CONNECTING →
RUNNING → {SUCCESS, FAILED}` (with `CONNECTING → FAILED` on connection
failure): `CONNECTING` is never skipped, and no status is ever delivered
after a terminal one. -/
theorem C1_status_sequence_valid (cfg : NodeConfig) (log : Bool)
    (conn : ConnectResult) (env : Nat → CmdResult) :
    isValidPathFrom NodeStatus.pending (sinkStatuses (runNode cfg log conn env)) = true ∧
    noAfterTerminal (sinkStatuses (runNode cfg log conn env)) = true := by
  cases conn with
  | ok =>
      rw [sinkStatuses_runNode_ok]
      rcases runLoop_statuses cfg log env cfg.commands 0 with ⟨h, _⟩ | ⟨h, _⟩ <;>
        rw [h] <;> exact ⟨by decide, by decide⟩
  | sshErr m =>
      rw [sinkStatuses_runNode_sshErr]
      exact ⟨by decide, by decide⟩
  | osErr m =>
      rw [sinkStatuses_runNode_osErr]
      exact ⟨by decide, by decide⟩

/-- Claim C2: with stop-on-error enabled and a first failing command at index
`j`, exactly the commands `0..j` are attempted (so `j + 1` of them), the node
ends `FAILED` with error message `"Command failed: <cmd>"` naming that
command, and no later command is attempted; with stop-on-error disabled all
commands are attempted in configured order and, the connection having
succeeded, the node ends `SUCCESS`. -/
theorem C2_stop_on_error_policy (cfg : NodeConfig) (log : Bool)
    (env : Nat → CmdResult) :
    (cfg.stop_on_error = true →
      ∀ j, j < cfg.commands.length →
        (∀ k, k < j → cmdOK (env k) = true) → cmdOK (env j) = false →
        (attemptsOf (runNode cfg log ConnectResult.ok env)).length = j + 1 ∧
        attemptsOf (runNode cfg log ConnectResult.ok env) =
          (List.range (j + 1)).map (fun k => (k, cfg.commands.getD k "")) ∧
        (finalState cfg log ConnectResult.ok env).status = NodeStatus.failed ∧
        (finalState cfg log ConnectResult.ok env).error_message =
          "Command failed: " ++ cfg.commands.getD j "") ∧
    (cfg.stop_on_error = false →
      attemptsOf (runNode cfg log ConnectResult.ok env) =
        (List.range cfg.commands.length).map (fun k => (k, cfg.commands.getD k "")) ∧
      (finalState cfg log ConnectResult.ok env).status = NodeStatus.success) := by
  constructor
  · intro hstop j hj hpre hfail
    have hpre0 : ∀ k, k < j → cmdOK (env (0 + k)) = true := by
      intro k hk; simpa using hpre k hk
    have hfail0 : cmdOK (env (0 + j)) = false := by simpa using hfail
    rcases runLoop_stop_fail cfg log env hstop cfg.commands 0 j hj hpre0 hfail0
      with ⟨ha, hs, _, he⟩
    have hmap : (List.range (j + 1)).map (fun k => ((0 : Nat) + k, cfg.commands.getD k "")) =
        (List.range (j + 1)).map (fun k => (k, cfg.commands.getD k "")) := by
      refine List.map_congr_left ?_
      intro a _
      simp
    refine ⟨?_, ?_, ?_, ?_⟩
    · rw [attemptsOf_runNode_ok, ha, hmap]
      simp
    · rw [attemptsOf_runNode_ok, ha, hmap]
    · unfold finalState
      rw [foldl_applyEv_status, setStatusesOf_runNode_ok, hs]
      rfl
    · unfold finalState
      rw [foldl_applyEv_error, setErrorsOf_runNode_ok, he]
      rfl
  · intro hstop
    rcases runLoop_continue cfg log env hstop cfg.commands 0 with ⟨ha, hs, _, _⟩
    constructor
    · rw [attemptsOf_runNode_ok, ha]
      refine List.map_congr_left ?_
      intro a _
      simp
    · unfold finalState
      rw [foldl_applyEv_status, setStatusesOf_runNode_ok, hs]
      rfl

/-- Witness for C2 at a concrete input: `cfgB` has stop-on-error set and its
first command exits 2 under `envFailFirst`. -/
theorem C2_stop_on_error_policy_witness :
    cfgB.stop_on_error = true ∧ 0 < cfgB.commands.length ∧
    cmdOK (envFailFirst 0) = false ∧
    (attemptsOf (runNode cfgB true ConnectResult.ok envFailFirst)).length = 0 + 1 ∧
    attemptsOf (runNode cfgB true ConnectResult.ok envFailFirst) =
      (List.range (0 + 1)).map (fun k => (k, cfgB.commands.getD k "")) ∧
    (finalState cfgB true ConnectResult.ok envFailFirst).status = NodeStatus.failed ∧
    (finalState cfgB true ConnectResult.ok envFailFirst).error_message =
      "Command failed: " ++ cfgB.commands.getD 0 "" := by
  have h := (C2_stop_on_error_policy cfgB true envFailFirst).1 (by decide) 0 (by decide)
    (fun k hk => absurd hk (Nat.not_lt_zero k)) (by decide)
  exact ⟨by decide, by decide, by decide, h.1, h.2.1, h.2.2.1, h.2.2.2⟩

/-- Claim C3 as stated ("the engine first forwards the `(nodeName, line)`
pair to the external Event Sink, then appends the line to the node's
in-memory output history") is false: in a concrete run the history append of
the connecting line happens with no prior sink delivery of that line.
`_emit_output` appends to the history first. -/
theorem C3_counterexample :
    sinkFirstOrder (runNode cfgA true ConnectResult.ok envOkA) = false := by decide

/-- Claim C3 amended: for every output event, the engine first appends the
line to the node's in-memory output history, then, exactly when a log file
is assigned, appends the line as a single newline-terminated record to that
file, and only then forwards the `(nodeName, line)` pair to the external
Event Sink; the three effects of one emission are contiguous in the trace. -/
theorem C3_emit_order (cfg : NodeConfig) (log : Bool) (conn : ConnectResult)
    (env : Nat → CmdResult) :
    emitBlocksOK log (runNode cfg log conn env) = true :=
  ebo_runNode cfg log conn env

/-- Claim C4: a transport-level fault (`asyncssh.Error`) raised while
launching or streaming a command is caught inside `_run_command`, reported as
a `"Command error: ..."` output line, and the call returns failure; the
caller's policy then decides whether the remaining commands run — with
stop-on-error disabled every configured command is still attempted. -/
theorem C4_transport_fault_contained (cfg : NodeConfig) (log : Bool)
    (env : Nat → CmdResult) (i : Nat) (pre : List (Bool × String)) (msg : String)
    (hi : i < cfg.commands.length)
    (hpre : ∀ k, k < i → cmdOK (env k) = true)
    (hf : env i = CmdResult.faulted pre msg) :
    (runCommandEvents log (env i)).2 = false ∧
    ("Command error: " ++ msg) ∈ histOf (runNode cfg log ConnectResult.ok env) ∧
    (cfg.stop_on_error = false →
      attemptsOf (runNode cfg log ConnectResult.ok env) =
        (List.range cfg.commands.length).map (fun k => (k, cfg.commands.getD k ""))) := by
  refine ⟨?_, ?_, ?_⟩
  · rw [hf]
    rfl
  · have hpre0 : ∀ k, k < i → cmdOK (env (0 + k)) = true := by
      intro k hk; simpa using hpre k hk
    have hmem : ("Command error: " ++ msg) ∈ cmdOutLines (env (0 + i)) := by
      simp [Nat.zero_add, hf, cmdOutLines]
    have h := runLoop_reaches cfg log env cfg.commands 0 i hi hpre0 _ hmem
    cases hw : cfg.work_dir <;> simp [runNode, hw, List.mem_append] <;> tauto
  · intro hstop
    rcases runLoop_continue cfg log env hstop cfg.commands 0 with ⟨ha, _, _, _⟩
    rw [attemptsOf_runNode_ok, ha]
    refine List.map_congr_left ?_
    intro a _
    simp

/-- Witness for C4 at a concrete input: under `envFaultFirst` the first
command of `cfgC` (stop-on-error disabled) faults with an `asyncssh.Error`;
the fault is reported, the runner returns failure, and both commands are
still attempted. -/
theorem C4_transport_fault_contained_witness :
    0 < cfgC.commands.length ∧
    envFaultFirst 0 = CmdResult.faulted [(true, "oops\n")] "Channel closed" ∧
    cfgC.stop_on_error = false ∧
    (runCommandEvents true (envFaultFirst 0)).2 = false ∧
    ("Command error: " ++ "Channel closed") ∈
      histOf (runNode cfgC true ConnectResult.ok envFaultFirst) ∧
    attemptsOf (runNode cfgC true ConnectResult.ok envFaultFirst) =
      (List.range cfgC.commands.length).map (fun k => (k, cfgC.commands.getD k "")) := by
  have h := C4_transport_fault_contained cfgC true envFaultFirst 0 [(true, "oops\n")]
    "Channel closed" (by decide) (fun k hk => absurd hk (Nat.not_lt_zero k)) (by decide)
  exact ⟨by decide, by decide, by decide, h.1, h.2.1, h.2.2 (by decide)⟩

/-- Claim C5: over an established session, `_run_command` returns success iff
the remote exit status equals 0; on a non-zero exit status it emits exactly
one additional output line reporting the numeric exit status, and on a zero
exit status it emits no such line. -/
theorem C5_exit_code_contract (log : Bool) (lines : List (Bool × String)) (code : Int) :
    ((runCommandEvents log (CmdResult.completed lines code)).2 = true ↔ code = 0) ∧
    histOf (runCommandEvents log (CmdResult.completed lines code)).1 =
      lines.map formatStreamLine ++
        (if code = 0 then [] else ["Command exited with status " ++ toString code]) := by
  constructor
  · simp [runCommandEvents]
  · by_cases hc : code = 0
    · simp [runCommandEvents, hc]
    · have hc2 : (code == 0) = false := by simpa using hc
      simp [runCommandEvents, hc, hc2]

/-- Claim C6 as stated (in-memory history and log-file text lines are always
identical) is false: when a configured command string contains an embedded
newline — as `cfgNl`'s single command does — the `"$ <cmd>"` emission is one
history entry but occupies two text lines in the log file. -/
theorem C6_counterexample :
    (histOf (runNode cfgNl true ConnectResult.ok envOkA)).map String.data ≠
      textLinesC (logChars (runNode cfgNl true ConnectResult.ok envOkA)) := by decide

/-- Claim C6 amended: for every node with a log file assigned, at every point
during the run and at run end, the sequence of lines stored in the node's
in-memory output history and the sequence of text lines in its log file are
identical and in the same emission order, one line per text line, provided no
emitted line contains an embedded newline character; a line containing an
embedded newline (for example a configured command string spanning several
lines) is stored as one history entry but split over several text lines in
the file (see the counterexample).

A point during the run is a prefix of the driver's effect trace.  The
identity is proved at every such prefix except those ending exactly at a
history append — the instant inside `_emit_output`'s body between
`output_lines.append(line)` and the adjacent `f.write(...)`, two statements
with no callback and no suspension point between them (see `isMidEmit`) — so
in particular it holds at every sink-callback invocation, at every await
point, and at run end. -/
theorem C6_history_matches_log (cfg : NodeConfig) (conn : ConnectResult)
    (env : Nat → CmdResult)
    (h : ∀ l ∈ histOf (runNode cfg true conn env), ('\n' : Char) ∉ l.data) :
    (∀ n : Nat, isMidEmit ((runNode cfg true conn env).take n) = false →
      textLinesC (logChars ((runNode cfg true conn env).take n)) =
        (histOf ((runNode cfg true conn env).take n)).map String.data) ∧
    textLinesC (logChars (runNode cfg true conn env)) =
      (histOf (runNode cfg true conn env)).map String.data := by
  constructor
  · intro n hmid
    have hbal := balanced_take n (runNode cfg true conn env)
      (ebo_runNode cfg true conn env) hmid
    rw [show logChars ((runNode cfg true conn env).take n) =
        (recsOf ((runNode cfg true conn env).take n)).foldr
          (fun r acc => r.data ++ acc) [] from rfl]
    rw [hbal, List.foldr_map]
    refine textLinesC_concat _ ?_
    intro l hl
    exact h l (((List.take_sublist n (runNode cfg true conn env)).filterMap _).subset hl)
  · rw [show logChars (runNode cfg true conn env) =
        (recsOf (runNode cfg true conn env)).foldr (fun r acc => r.data ++ acc) [] from rfl]
    rw [recsOf_runNode_log, List.foldr_map]
    exact textLinesC_concat _ h

/-- Witness for C6 at a concrete input: `cfgA`'s run emits no line with an
embedded newline; its history and log-file text lines coincide at run end
and at the concrete mid-run observation point after the fifth effect (the
sink delivery of the connecting line). -/
theorem C6_history_matches_log_witness :
    (∀ l ∈ histOf (runNode cfgA true ConnectResult.ok envOkA), ('\n' : Char) ∉ l.data) ∧
    isMidEmit ((runNode cfgA true ConnectResult.ok envOkA).take 5) = false ∧
    textLinesC (logChars ((runNode cfgA true ConnectResult.ok envOkA).take 5)) =
      (histOf ((runNode cfgA true ConnectResult.ok envOkA).take 5)).map String.data ∧
    textLinesC (logChars (runNode cfgA true ConnectResult.ok envOkA)) =
      (histOf (runNode cfgA true ConnectResult.ok envOkA)).map String.data :=
  ⟨by decide, by decide,
    (C6_history_matches_log cfgA ConnectResult.ok envOkA (by decide)).1 5 (by decide),
    (C6_history_matches_log cfgA ConnectResult.ok envOkA (by decide)).2⟩

/-- Claim C7: `run_all` resolves only after every node has reached a terminal
state — in the returned states every node's recorded status is `SUCCESS` or
`FAILED`, whatever the per-node transport behaviour was. -/
theorem C7_run_all_terminal (c : Config) (en : Bool)
    (connOf : Nat → ConnectResult) (envOf : Nat → Nat → CmdResult) :
    (runAllStates c en connOf envOf).all
      (fun p => p.2.status == NodeStatus.success || p.2.status == NodeStatus.failed)
      = true := by
  have h := runAllStates_terminal c en connOf envOf
  simpa [isTerminal] using h

/-- Claim C8: a headless run exits 0 iff every node reached `SUCCESS`, exits
non-zero iff at least one node reached `FAILED`, and in the failure case the
failed node names are reported on a separate stderr summary line, distinct
from the per-node interleaved output. -/
theorem C8_headless_exit_contract (c : Config) (en : Bool)
    (connOf : Nat → ConnectResult) (envOf : Nat → Nat → CmdResult) :
    ((runHeadless c en connOf envOf).exitCode == 0) =
      (runAllStates c en connOf envOf).all
        (fun p => p.2.status == NodeStatus.success) ∧
    ((runHeadless c en connOf envOf).exitCode == 0) =
      !((runAllStates c en connOf envOf).any
        (fun p => p.2.status == NodeStatus.failed)) ∧
    (runHeadless c en connOf envOf).failedReport =
      (if (runAllStates c en connOf envOf).any
          (fun p => p.2.status == NodeStatus.failed)
       then some ("Failed nodes: " ++ String.intercalate ", "
         (failedNames (runAllStates c en connOf envOf)))
       else none) := by
  have hterm := runAllStates_terminal c en connOf envOf
  by_cases hany : (runAllStates c en connOf envOf).any
      (fun p => p.2.status == NodeStatus.failed) = true
  · have hne : (failedNames (runAllStates c en connOf envOf)).isEmpty = false := by
      rw [failedNames_isEmpty, hany]
      rfl
    have hrun : runHeadless c en connOf envOf =
        ⟨1, some ("Failed nodes: " ++ String.intercalate ", "
          (failedNames (runAllStates c en connOf envOf)))⟩ := by
      simp [runHeadless, hne]
    obtain ⟨p, hp, hps⟩ := List.any_eq_true.mp hany
    have hfail : p.2.status = NodeStatus.failed := by simpa using hps
    have hall : (runAllStates c en connOf envOf).all
        (fun p => p.2.status == NodeStatus.success) = false := by
      rw [Bool.eq_false_iff]
      intro hforall
      have h1 := List.all_eq_true.mp hforall p hp
      rw [hfail] at h1
      simp at h1
    refine ⟨?_, ?_, ?_⟩
    · rw [hrun, hall]
      rfl
    · rw [hrun, hany]
      rfl
    · rw [hrun]
      simp [hany]
  · have hany2 : (runAllStates c en connOf envOf).any
        (fun p => p.2.status == NodeStatus.failed) = false := by
      rwa [Bool.not_eq_true] at hany
    have hne : (failedNames (runAllStates c en connOf envOf)).isEmpty = true := by
      rw [failedNames_isEmpty, hany2]
      rfl
    have hrun : runHeadless c en connOf envOf = ⟨0, none⟩ := by
      simp [runHeadless, hne]
    have hall : (runAllStates c en connOf envOf).all
        (fun p => p.2.status == NodeStatus.success) = true := by
      rw [List.all_eq_true]
      intro p hp
      have ht := List.all_eq_true.mp hterm p hp
      have hnf : ¬ (p.2.status == NodeStatus.failed) = true := by
        intro hx
        have : (runAllStates c en connOf envOf).any
            (fun p => p.2.status == NodeStatus.failed) = true :=
          List.any_eq_true.mpr ⟨p, hp, hx⟩
        rw [hany2] at this
        exact Bool.false_ne_true this
      rcases Bool.or_eq_true_iff.mp ht with h1 | h1
      · exact h1
      · exact absurd h1 hnf
    refine ⟨?_, ?_, ?_⟩
    · rw [hrun, hall]
      rfl
    · rw [hrun, hany2]
      rfl
    · rw [hrun]
      simp [hany2]

/-- Claim C9: whenever a node transitions to `FAILED`, the `FAILED` status is
delivered to the Event Sink before `error_message` is assigned — an observer
reading the node's state from inside the status callback sees an empty
`error_message` — and on connection failure the error-message assignment and
the `"ERROR: ..."` output line both come only after the `FAILED` delivery. -/
theorem C9_failed_delivered_before_error (cfg : NodeConfig) (log : Bool)
    (env : Nat → CmdResult) (m : String) :
    (∀ conn : ConnectResult,
      errorMsgAt ((runNode cfg log conn env).takeWhile
        (fun e => !(e == Ev.sinkStatus NodeStatus.failed))) = "") ∧
    (runNode cfg log (ConnectResult.sshErr m) env).dropWhile
        (fun e => !(e == Ev.sinkStatus NodeStatus.failed)) =
      Ev.sinkStatus NodeStatus.failed :: Ev.setError ("SSH error: " ++ m) ::
        emitOutput log ("ERROR: " ++ m) ∧
    (runNode cfg log (ConnectResult.osErr m) env).dropWhile
        (fun e => !(e == Ev.sinkStatus NodeStatus.failed)) =
      Ev.sinkStatus NodeStatus.failed :: Ev.setError ("Connection error: " ++ m) ::
        emitOutput log ("ERROR: " ++ m) := by
  refine ⟨fun conn => scan_takeWhile _ (sebfs_runNode cfg log conn env), ?_, ?_⟩
  · cases log <;>
      simp [runNode, emitStatus, emitOutput, connectingLine, List.dropWhile_cons]
  · cases log <;>
      simp [runNode, emitStatus, emitOutput, connectingLine, List.dropWhile_cons]

/-- Claim C10: if every node has its per-node logging-disabled flag set then,
even with logging globally enabled, no log directory is created, no copy of
the source configuration is persisted, and every node's log destination is
left unset; furthermore the log directory and the configuration copy are
only ever created when logging is globally enabled and at least one node has
logging enabled. -/
theorem C10_no_logging_frame (c : Config) (en se : Bool)
    (connOf : Nat → ConnectResult) (envOf : Nat → Nat → CmdResult) :
    (c.nodes.all (fun n => n.no_logs) = true →
      logDirCreated c en = false ∧ configCopied c en se = false ∧
      (runAllStates c en connOf envOf).all (fun p => p.2.log_file == none) = true) ∧
    (logDirCreated c en = true →
      en = true ∧ c.nodes.any (fun n => !n.no_logs) = true) ∧
    (configCopied c en se = true →
      en = true ∧ c.nodes.any (fun n => !n.no_logs) = true) := by
  have key : logDirCreated c en = true →
      en = true ∧ c.nodes.any (fun n => !n.no_logs) = true := by
    intro hld
    have h1 := Bool.and_eq_true_iff.mp hld
    refine ⟨h1.1, ?_⟩
    have h2 : c.nodes.all (fun n => n.no_logs) = false := by
      have := h1.2
      cases hx : c.nodes.all (fun n => n.no_logs)
      · rfl
      · rw [hx] at this
        exact absurd this (by simp)
    rw [List.any_eq_true]
    have h3 : ¬ ∀ n ∈ c.nodes, n.no_logs = true := by
      intro hforall
      rw [List.all_eq_true.mpr hforall] at h2
      exact absurd h2 (by decide)
    push_neg at h3
    obtain ⟨n, hn, hnl⟩ := h3
    exact ⟨n, hn, by simp [Bool.not_eq_true] at hnl; simp [hnl]⟩
  refine ⟨?_, key, ?_⟩
  · intro hall
    have hld : logDirCreated c en = false := by
      simp [logDirCreated, hall]
    refine ⟨hld, by simp [configCopied, hld], ?_⟩
    rw [List.all_eq_true]
    intro p hp
    simp only [runAllStates, List.mem_map] at hp
    obtain ⟨q, _, hpe⟩ := hp
    have hna : nodeLogAssigned c en q.2 = false := by
      simp [nodeLogAssigned, hld]
    have hlf : (finalState q.2 false (connOf q.1) (envOf q.1)).log_file = none := by
      rw [finalState_log_file]
      rfl
    simp [← hpe, hna, hlf]
  · intro hcc
    have hld : logDirCreated c en = true := by
      have h1 := Bool.and_eq_true_iff.mp hcc
      exact (Bool.and_eq_true_iff.mp h1.1).1
    exact key hld

/-- Witness for C10 at a concrete input: in `cfgFleetNoLogs` every node has
`no_logs` set; with logging globally enabled no log directory is created, the
configuration is not copied, and the node's log destination stays unset. -/
theorem C10_no_logging_frame_witness :
    cfgFleetNoLogs.nodes.all (fun n => n.no_logs) = true ∧
    (logDirCreated cfgFleetNoLogs true = false ∧
      configCopied cfgFleetNoLogs true true = false ∧
      (runAllStates cfgFleetNoLogs true connFleet envFleet).all
        (fun p => p.2.log_file == none) = true) :=
  ⟨by decide,
    (C10_no_logging_frame cfgFleetNoLogs true true connFleet envFleet).1 (by decide)⟩
